import Mathlib

/-!
Verification development for the image-handler core of the
Dynamic Image Transformation for Amazon CloudFront solution.

The definitions below are a shallow embedding of
`source/image-handler/image-handler.ts` (class `ImageHandler`) and, where the
repository code is not available, of the behavior documented in the design
specification.  JavaScript numbers are modelled as exact rationals (`ℚ`);
pixel dimensions as integers; byte buffers as `List Nat`.  Calls into the
image engine (sharp) are recorded as a trace of engine operations, and calls
into external collaborators (S3, Rekognition) are answered by an explicit
environment record `Env`.
-/

namespace ImageHandler

/-- Byte buffers (Node `Buffer`), modelled as lists of bytes. -/
abbrev Bytes := List Nat

/-- Canonical domain error: numeric status, stable code, message
(`ImageHandlerError` from `lib`). -/
structure ImageHandlerErr where
  status : Nat
  code : String
  message : String
deriving DecidableEq

/-- Normalized face / crop bounding box with rational components
(fractions of the image dimensions for Rekognition boxes). -/
structure BoundingBoxQ where
  left : ℚ
  top : ℚ
  width : ℚ
  height : ℚ
deriving DecidableEq

/-- Pixel size of an image buffer (sharp `OutputInfo` dimensions). -/
structure BoxSizeI where
  width : ℤ
  height : ℤ
deriving DecidableEq

/-- A pixel-region (sharp `extract` argument / computed crop area). -/
structure Region where
  left : ℤ
  top : ℤ
  width : ℤ
  height : ℤ
deriving DecidableEq

/-- Embedding of `ImageHandler.getCropArea`: converts a normalized bounding
box plus a padding value into a pixel crop area, flooring, clamping `left`
and `top` at `0` and capping `width`/`height` at the image's right/bottom
edge. -/
def getCropArea (boundingBox : BoundingBoxQ) (padding : ℚ) (boxSize : BoxSizeI) : Region :=
  let left0 : ℤ := ⌊boundingBox.left * boxSize.width - padding⌋
  let top0 : ℤ := ⌊boundingBox.top * boxSize.height - padding⌋
  let extractWidth0 : ℤ := ⌊boundingBox.width * boxSize.width + padding * 2⌋
  let extractHeight0 : ℤ := ⌊boundingBox.height * boxSize.height + padding * 2⌋
  let left := if left0 < 0 then 0 else left0
  let top := if top0 < 0 then 0 else top0
  let maxWidth := boxSize.width - left
  let maxHeight := boxSize.height - top
  let extractWidth := if extractWidth0 > maxWidth then maxWidth else extractWidth0
  let extractHeight := if extractHeight0 > maxHeight then maxHeight else extractHeight0
  ⟨left, top, extractWidth, extractHeight⟩

/-- JavaScript `parseInt` (radix 10) on the maximal leading digit run:
skips leading spaces, accepts an optional sign, requires at least one digit
and ignores any trailing garbage; `none` models `NaN`. -/
def leadDigits : List Char → Option ℕ
  | [] => none
  | c :: cs => if c.isDigit then some (leadDigitsAcc (c.toNat - 48) cs) else none
where
  leadDigitsAcc (acc : ℕ) : List Char → ℕ
    | [] => acc
    | c :: cs => if c.isDigit then leadDigitsAcc (acc * 10 + (c.toNat - 48)) cs else acc

/-- JavaScript `parseInt(s)` as used by the handler; `none` models `NaN`. -/
def parseIntJS (s : String) : Option ℤ :=
  match s.data.dropWhile (fun c => c == ' ') with
  | '-' :: rest => (leadDigits rest).map (fun n => -(n : ℤ))
  | '+' :: rest => (leadDigits rest).map (fun n => (n : ℤ))
  | cs => (leadDigits cs).map (fun n => (n : ℤ))

/-- JavaScript `s.replace(pat, "")` for a single-character pattern: removes
the first occurrence of the character, as used for stripping the `p`
percentage suffix. -/
def removeFirstChar (c : Char) : List Char → List Char
  | [] => []
  | x :: xs => if x == c then xs else x :: removeFirstChar c xs

/-- JavaScript `s.endsWith("p")` (the percentage-suffix test), computed on
the character list so that it evaluates by reduction. -/
def endsWithP (s : String) : Bool :=
  match s.data.getLast? with
  | some c => c == 'p'
  | none => false

/-- Embedding of `ImageHandler.calcOverlaySizeOption`: resolves an overlay
`left`/`top` placement option against the base dimension `imageSize` and the
overlay dimension `overlaySize`.  A trailing `p` means percent; negative
values are measured from the far edge.  `none` both as argument (the option
was `undefined`) and as result (`NaN`). -/
def calcOverlaySizeOption (editSize : Option String) (imageSize overlaySize : ℤ) : Option ℤ :=
  match editSize with
  | none => none
  | some s =>
    if endsWithP s then
      match parseIntJS (String.mk (removeFirstChar 'p' s.data)) with
      | none => none
      | some r =>
        some (if r < 0
          then ⌊(imageSize : ℚ) + (imageSize * r : ℤ) / (100 : ℚ) - overlaySize⌋
          else ⌊((imageSize * r : ℤ) : ℚ) / 100⌋)
    else
      match parseIntJS s with
      | none => none
      | some r => some (if r < 0 then imageSize + r - overlaySize else r)

/-- Embedding of `ImageHandler.validRoundCropParam`: JavaScript
`param && param >= 0`, i.e. the parameter is present, truthy (non-zero)
and non-negative. -/
def validRoundCropParam (param : Option ℚ) : Bool :=
  match param with
  | none => false
  | some v => !(v == 0) && decide (0 ≤ v)

/-- The ellipse geometry computed by `ImageHandler.applyRoundCrop`:
`(radiusX, radiusY, topOffset, leftOffset)` from the optional `roundCrop`
parameters and the current buffer dimensions. -/
def roundCropGeometry (top left rx ry : Option ℚ) (width height : ℤ) : ℚ × ℚ × ℚ × ℚ :=
  let minWH : ℚ := min (width : ℚ) (height : ℚ)
  ( if validRoundCropParam rx then rx.getD 0 else minWH / 2
  , if validRoundCropParam ry then ry.getD 0 else minWH / 2
  , if validRoundCropParam top then top.getD 0 else (height : ℚ) / 2
  , if validRoundCropParam left then left.getD 0 else (width : ℚ) / 2 )

/-! ### Helper lemmas for the crop-area computation -/

/-- Clamp an integer at zero from below (the `left < 0 ? 0 : left` step). -/
def clampNonneg (z : ℤ) : ℤ := if z < 0 then 0 else z

/-- Cap an integer extent at a maximum (the `extractWidth > maxWidth ?
maxWidth : extractWidth` step). -/
def capAt (maxE e : ℤ) : ℤ := if e > maxE then maxE else e

theorem clampNonneg_nonneg (z : ℤ) : 0 ≤ clampNonneg z := by
  unfold clampNonneg; split <;> omega

theorem clampNonneg_le {z W : ℤ} (hz : z ≤ W) (hW : 0 ≤ W) : clampNonneg z ≤ W := by
  unfold clampNonneg; split <;> omega

theorem getCropArea_eq (bb : BoundingBoxQ) (padding : ℚ) (box : BoxSizeI) :
    getCropArea bb padding box =
      ⟨clampNonneg ⌊bb.left * box.width - padding⌋,
       clampNonneg ⌊bb.top * box.height - padding⌋,
       capAt (box.width - clampNonneg ⌊bb.left * box.width - padding⌋)
         ⌊bb.width * box.width + padding * 2⌋,
       capAt (box.height - clampNonneg ⌊bb.top * box.height - padding⌋)
         ⌊bb.height * box.height + padding * 2⌋⟩ := rfl

theorem cropAxis_bounds (bl bw p : ℚ) (W : ℤ)
    (hbl0 : 0 ≤ bl) (hbl1 : bl ≤ 1) (hbw : 0 ≤ bw) (hp : 0 ≤ p) (hW : (0:ℤ) ≤ W) :
    0 ≤ clampNonneg ⌊bl * W - p⌋ ∧
    0 ≤ capAt (W - clampNonneg ⌊bl * W - p⌋) ⌊bw * W + p * 2⌋ ∧
    clampNonneg ⌊bl * W - p⌋ + capAt (W - clampNonneg ⌊bl * W - p⌋) ⌊bw * W + p * 2⌋ ≤ W := by
  have hWq : (0:ℚ) ≤ (W:ℚ) := by exact_mod_cast hW
  have hfloor_le : ⌊bl * W - p⌋ ≤ W := by
    have h1 : bl * (W:ℚ) - p ≤ W := by
      have : bl * (W:ℚ) ≤ 1 * W := mul_le_mul_of_nonneg_right hbl1 hWq
      linarith
    calc ⌊bl * (W:ℚ) - p⌋ ≤ ⌊(W:ℚ)⌋ := Int.floor_le_floor h1
    _ = W := Int.floor_intCast W
  have hclampW : clampNonneg ⌊bl * W - p⌋ ≤ W := clampNonneg_le hfloor_le hW
  have hext : (0:ℤ) ≤ ⌊bw * W + p * 2⌋ := by
    apply Int.le_floor.mpr
    have : (0:ℚ) ≤ bw * W := mul_nonneg hbw hWq
    push_cast
    linarith
  refine ⟨clampNonneg_nonneg _, ?_, ?_⟩
  · unfold capAt; split <;> omega
  · unfold capAt; split <;> omega

/-- C6 counterexample: with a negative padding the crop area can have a
negative width, so the invariant does not hold "for every padding value".
Bounding box `{left:0, top:0, width:0.1, height:0.1}` with `padding = -10`
on a 100×100 image yields `width = height = -10`. -/
theorem getCropArea_negative_padding_cex :
    (getCropArea ⟨0, 0, 1/10, 1/10⟩ (-10) ⟨100, 100⟩).width = -10 ∧
    ¬(0 ≤ (getCropArea ⟨0, 0, 1/10, 1/10⟩ (-10) ⟨100, 100⟩).width) := by
  have h : (getCropArea ⟨0, 0, 1/10, 1/10⟩ (-10) ⟨100, 100⟩).width = -10 := by
    rw [getCropArea_eq]
    norm_num [clampNonneg, capAt]
  exact ⟨h, by rw [h]; omega⟩

/-- C6 (amended to non-negative padding): for every bounding box with all
four components in `[0,1]` and every *non-negative* padding value,
`getCropArea` returns a crop area with `left, top ≥ 0`, non-negative
width/height, `left + width ≤ imageWidth` and `top + height ≤ imageHeight`. -/
theorem getCropArea_bounds (bb : BoundingBoxQ) (padding : ℚ) (box : BoxSizeI)
    (hl0 : 0 ≤ bb.left) (hl1 : bb.left ≤ 1) (ht0 : 0 ≤ bb.top) (ht1 : bb.top ≤ 1)
    (hw0 : 0 ≤ bb.width) (hw1 : bb.width ≤ 1) (hh0 : 0 ≤ bb.height) (hh1 : bb.height ≤ 1)
    (hp : 0 ≤ padding) (hW : 0 ≤ box.width) (hH : 0 ≤ box.height) :
    0 ≤ (getCropArea bb padding box).left ∧
    0 ≤ (getCropArea bb padding box).top ∧
    0 ≤ (getCropArea bb padding box).width ∧
    0 ≤ (getCropArea bb padding box).height ∧
    (getCropArea bb padding box).left + (getCropArea bb padding box).width ≤ box.width ∧
    (getCropArea bb padding box).top + (getCropArea bb padding box).height ≤ box.height := by
  have h1 := cropAxis_bounds bb.left bb.width padding box.width hl0 hl1 hw0 hp hW
  have h2 := cropAxis_bounds bb.top bb.height padding box.height ht0 ht1 hh0 hp hH
  rw [getCropArea_eq]
  exact ⟨h1.1, h2.1, h1.2.1, h2.2.1, h1.2.2, h2.2.2⟩

/-- C6 witness: concrete instance of `getCropArea_bounds`. -/
theorem getCropArea_bounds_witness :
    0 ≤ (getCropArea ⟨1/4, 1/4, 1/2, 1/2⟩ 5 ⟨100, 80⟩).left ∧
    0 ≤ (getCropArea ⟨1/4, 1/4, 1/2, 1/2⟩ 5 ⟨100, 80⟩).top ∧
    0 ≤ (getCropArea ⟨1/4, 1/4, 1/2, 1/2⟩ 5 ⟨100, 80⟩).width ∧
    0 ≤ (getCropArea ⟨1/4, 1/4, 1/2, 1/2⟩ 5 ⟨100, 80⟩).height ∧
    (getCropArea ⟨1/4, 1/4, 1/2, 1/2⟩ 5 ⟨100, 80⟩).left +
      (getCropArea ⟨1/4, 1/4, 1/2, 1/2⟩ 5 ⟨100, 80⟩).width ≤ 100 ∧
    (getCropArea ⟨1/4, 1/4, 1/2, 1/2⟩ 5 ⟨100, 80⟩).top +
      (getCropArea ⟨1/4, 1/4, 1/2, 1/2⟩ 5 ⟨100, 80⟩).height ≤ 80 :=
  getCropArea_bounds ⟨1/4, 1/4, 1/2, 1/2⟩ 5 ⟨100, 80⟩
    (by norm_num) (by norm_num) (by norm_num) (by norm_num) (by norm_num) (by norm_num)
    (by norm_num) (by norm_num) (by norm_num) (by norm_num) (by norm_num)

/-- C7: overlay placement options.  A value suffixed `p` is a percentage of
the base dimension (`floor(base*pct/100)` when non-negative); a negative
plain integer resolves to `base + raw - overlay`; a negative percentage
resolves to `floor(base + base*pct/100 - overlay)`; in particular `-10p`
with base 100 and overlay 20 resolves to 70. -/
theorem calcOverlaySizeOption_spec (base overlay : ℤ) (s : String) (n : ℤ) :
    (endsWithP s = true →
      parseIntJS (String.mk (removeFirstChar 'p' s.data)) = some n → 0 ≤ n →
      calcOverlaySizeOption (some s) base overlay = some ⌊(base : ℚ) * n / 100⌋) ∧
    (endsWithP s = true →
      parseIntJS (String.mk (removeFirstChar 'p' s.data)) = some n → n < 0 →
      calcOverlaySizeOption (some s) base overlay =
        some ⌊(base : ℚ) + (base : ℚ) * n / 100 - overlay⌋) ∧
    (endsWithP s = false → parseIntJS s = some n → n < 0 →
      calcOverlaySizeOption (some s) base overlay = some (base + n - overlay)) ∧
    calcOverlaySizeOption (some "-10p") 100 20 = some 70 := by
  have hnegpct : ∀ (b o : ℤ) (s' : String) (m : ℤ), endsWithP s' = true →
      parseIntJS (String.mk (removeFirstChar 'p' s'.data)) = some m → m < 0 →
      calcOverlaySizeOption (some s') b o =
        some ⌊(b : ℚ) + (b : ℚ) * m / 100 - o⌋ := by
    intro b o s' m hp hparse hm
    simp only [calcOverlaySizeOption, hp, if_true, hparse]
    rw [if_pos hm]
    congr 2
    push_cast
    ring
  refine ⟨?_, hnegpct base overlay s n, ?_, ?_⟩
  · intro hp hparse hn
    simp only [calcOverlaySizeOption, hp, if_true, hparse]
    rw [if_neg (by omega)]
    congr 2
    push_cast
    ring
  · intro hp hparse hn
    simp only [calcOverlaySizeOption, hp, if_false, Bool.false_eq_true, hparse]
    rw [if_pos hn]
  · have h := hnegpct 100 20 "-10p" (-10) (by decide) (by decide) (by decide)
    rw [h]
    norm_num

/-- C7 witness: `calcOverlaySizeOption_spec` applied at a plain negative
offset `-30` with base 100 and overlay 20. -/
theorem calcOverlaySizeOption_spec_witness :
    calcOverlaySizeOption (some "-30") 100 20 = some 50 := by
  have h := (calcOverlaySizeOption_spec 100 20 "-30" (-30)).2.2.1
    (by decide) (by decide) (by decide)
  rw [h]
  norm_num

/-- C8 counterexample: an explicitly supplied `0` is *not* honored: JavaScript
`param && param >= 0` treats `0` as falsy, so `roundCrop` with `rx = 0` on a
100×50 image falls back to the default radius `min(100,50)/2 = 25` instead
of using `0`. -/
theorem roundCropGeometry_zero_cex :
    roundCropGeometry none none (some 0) none 100 50 = (25, 25, 25, 50) ∧
    ¬((roundCropGeometry none none (some 0) none 100 50).1 = 0) := by
  have h : roundCropGeometry none none (some 0) none 100 50 = (25, 25, 25, 50) := by
    norm_num [roundCropGeometry, validRoundCropParam]
  refine ⟨h, ?_⟩
  rw [h]
  norm_num

/-- C8 (amended): `roundCrop` with no parameters uses the defaults
`rx = ry = min(W,H)/2`, `top = H/2`, `left = W/2`; each parameter is
overridable by a *positive* explicit value, while an explicit `0` (like a
negative or missing value) falls back to the default. -/
theorem roundCropGeometry_defaults (W H : ℤ) (t l rx ry : ℚ)
    (ht : 0 < t) (hl : 0 < l) (hrx : 0 < rx) (hry : 0 < ry) :
    roundCropGeometry none none none none W H =
      (min (W:ℚ) (H:ℚ) / 2, min (W:ℚ) (H:ℚ) / 2, (H:ℚ) / 2, (W:ℚ) / 2) ∧
    roundCropGeometry (some t) (some l) (some rx) (some ry) W H = (rx, ry, t, l) ∧
    roundCropGeometry (some 0) (some 0) (some 0) (some 0) W H =
      roundCropGeometry none none none none W H := by
  refine ⟨rfl, ?_, ?_⟩
  · have hv : ∀ v : ℚ, 0 < v → validRoundCropParam (some v) = true := by
      intro v hv
      simp only [validRoundCropParam, Bool.and_eq_true, Bool.not_eq_true',
        beq_eq_false_iff_ne, ne_eq, decide_eq_true_eq]
      exact ⟨hv.ne', le_of_lt hv⟩
    simp only [roundCropGeometry, hv t ht, hv l hl, hv rx hrx, hv ry hry, if_true,
      Option.getD_some]
  · rfl

/-- C8 witness: `roundCropGeometry_defaults` applied on a 100×50 image with
positive overrides `(top, left, rx, ry) = (3, 4, 5, 6)`. -/
theorem roundCropGeometry_defaults_witness :
    roundCropGeometry none none none none 100 50 =
      (min (100:ℚ) (50:ℚ) / 2, min (100:ℚ) (50:ℚ) / 2, (50:ℚ) / 2, (100:ℚ) / 2) ∧
    roundCropGeometry (some 3) (some 4) (some 5) (some 6) 100 50 = (5, 6, 3, 4) ∧
    roundCropGeometry (some 0) (some 0) (some 0) (some 0) 100 50 =
      roundCropGeometry none none none none 100 50 :=
  roundCropGeometry_defaults 100 50 3 4 5 6 (by norm_num) (by norm_num) (by norm_num)
    (by norm_num)

/-! ### Error taxonomy and the pattern-based error mapper (`handleError`) -/

/-- Does `pat` occur as a prefix of `s`? -/
def prefixAt : List Char → List Char → Bool
  | [], _ => true
  | _ :: _, [] => false
  | p :: ps, c :: cs => p == c && prefixAt ps cs

/-- Does `pat` occur as a contiguous substring of `s`?  This is JavaScript
`s.includes(pat)` as used by `handleError` for its pattern table. -/
def hasSub (pat : List Char) : List Char → Bool
  | [] => prefixAt pat []
  | c :: cs => prefixAt pat (c :: cs) || hasSub pat cs

theorem prefixAt_iff (pat s : List Char) :
    prefixAt pat s = true ↔ ∃ r, s = pat ++ r := by
  induction pat generalizing s with
  | nil => simp [prefixAt]
  | cons p ps ih =>
    cases s with
    | nil =>
      simp only [prefixAt, List.cons_append]
      constructor
      · intro h
        cases h
      · rintro ⟨r, h⟩
        cases h
    | cons c cs =>
      simp only [prefixAt, Bool.and_eq_true, beq_iff_eq, ih, List.cons_append,
        List.cons.injEq]
      constructor
      · rintro ⟨hpc, r, hr⟩
        exact ⟨r, hpc.symm, hr⟩
      · rintro ⟨r, hcp, hr⟩
        exact ⟨hcp.symm, r, hr⟩

theorem hasSub_iff (pat s : List Char) :
    hasSub pat s = true ↔ ∃ l r, s = l ++ pat ++ r := by
  induction s with
  | nil =>
    simp only [hasSub, prefixAt_iff]
    constructor
    · rintro ⟨r, hr⟩
      exact ⟨[], r, by simpa using hr⟩
    · rintro ⟨l, r, hr⟩
      have h := hr.symm
      rw [List.append_assoc] at h
      have h2 := List.append_eq_nil.mp h
      have h3 := List.append_eq_nil.mp h2.2
      exact ⟨[], by simp [h3.1]⟩
  | cons c cs ih =>
    simp only [hasSub, Bool.or_eq_true, prefixAt_iff, ih]
    constructor
    · rintro (⟨r, hr⟩ | ⟨l, r, hr⟩)
      · exact ⟨[], r, by simpa using hr⟩
      · exact ⟨c :: l, r, by simp [hr]⟩
    · rintro ⟨l, r, hr⟩
      cases l with
      | nil => exact Or.inl ⟨r, by simpa using hr⟩
      | cons x xs =>
        right
        have h : c = x ∧ cs = xs ++ (pat ++ r) := by simpa using hr
        exact ⟨xs, r, by simp [h.2]⟩

/-- JavaScript `msg.includes(pattern)` on strings. -/
def includesJS (msg pattern : String) : Bool := hasSub pattern.data msg.data

/-- A thrown JavaScript error as seen by `handleError`: either an already
constructed `ImageHandlerError` or some other (engine/detector) error with a
message. -/
inductive JsErr where
  | handler (e : ImageHandlerErr)
  | generic (message : String)
deriving DecidableEq

/-- The `message` field of an `ErrorMapping`: a constant string or a
function of the original error's message. -/
inductive ErrMessage where
  | const (s : String)
  | fn (f : String → String)

/-- An entry of the ordered pattern table used by `handleError`. -/
structure ErrorMapping where
  pattern : String
  statusCode : Nat
  errorType : String
  message : ErrMessage

/-- The domain error built from a matched mapping (the
`new ImageHandlerError(mapping.statusCode, mapping.errorType, ...)` call). -/
def buildMappedError (m : ErrorMapping) (originalMessage : String) : ImageHandlerErr :=
  ⟨m.statusCode, m.errorType,
    match m.message with
    | .const s => s
    | .fn f => f originalMessage⟩

/-- Embedding of `ImageHandler.handleError`: the function never returns
normally in the source (`: never`); here it returns the error that is
thrown.  An error that is already an `ImageHandlerError` is rethrown
unchanged; otherwise the first mapping whose pattern occurs in the message
is used, and the default error is thrown when none matches. -/
def handleError (error : JsErr) (defaultError : ImageHandlerErr)
    (errorMappings : List ErrorMapping := []) : ImageHandlerErr :=
  match error with
  | .handler e => e
  | .generic msg =>
    match errorMappings.find? (fun m => includesJS msg m.pattern) with
    | some m => buildMappedError m msg
    | none => defaultError

/-- C10: `handleError` always produces a thrown error (it is modelled as the
total function returning the thrown error, matching the `never` return type
of the source).  An error that is already an `ImageHandlerError` is rethrown
itself, unchanged, without consulting the pattern table or the default;
otherwise the error built from the first mapping whose pattern is a
substring of the message is thrown, and the default is thrown when no
pattern matches.  The substring test `includesJS` is characterized
extensionally in the last conjunct. -/
theorem handleError_spec (e : ImageHandlerErr) (d : ImageHandlerErr)
    (msg : String) (pre post : List ErrorMapping) (m : ErrorMapping)
    (hpre : ∀ m' ∈ pre, includesJS msg m'.pattern = false)
    (hm : includesJS msg m.pattern = true) :
    handleError (.handler e) d (pre ++ m :: post) = e ∧
    handleError (.generic msg) d (pre ++ m :: post) = buildMappedError m msg ∧
    ((∀ m' ∈ pre, includesJS msg m'.pattern = false) →
      handleError (.generic msg) d pre = d) ∧
    (∀ pat s : String, includesJS s pat = true ↔ ∃ l r, s.data = l ++ pat.data ++ r) := by
  refine ⟨rfl, ?_, ?_, ?_⟩
  · unfold handleError
    have hfind : (pre ++ m :: post).find? (fun m' => includesJS msg m'.pattern) = some m := by
      induction pre with
      | nil => simp [List.find?, hm]
      | cons x xs ih =>
        have hx : includesJS msg x.pattern = false := hpre x (by simp)
        simp only [List.cons_append, List.find?, hx]
        exact ih (fun m' hm' => hpre m' (by simp [hm']))
    simp only [handleError, hfind]
  · intro hall
    unfold handleError
    have hfind : pre.find? (fun m' => includesJS msg m'.pattern) = none := by
      apply List.find?_eq_none.mpr
      intro x hx
      simp [hall x hx]
    simp only [handleError, hfind]
  · intro tpat s
    exact hasSub_iff tpat.data s.data

/-- C10 witness: `handleError_spec` at a concrete message and two-entry
table whose first entry does not match and whose second does. -/
theorem handleError_spec_witness :
    handleError (.handler ⟨400, "BadRequest", "x"⟩) ⟨500, "ProcessingFailure", "d"⟩
      ([⟨"nope", 400, "A", .const "a"⟩] ++ ⟨"not supported", 400, "B", .const "b"⟩ :: []) =
      ⟨400, "BadRequest", "x"⟩ ∧
    handleError (.generic "Bitstream not supported by this decoder")
      ⟨500, "ProcessingFailure", "d"⟩
      ([⟨"nope", 400, "A", .const "a"⟩] ++ ⟨"not supported", 400, "B", .const "b"⟩ :: []) =
      buildMappedError ⟨"not supported", 400, "B", .const "b"⟩
        "Bitstream not supported by this decoder" ∧
    ((∀ m' ∈ [(⟨"nope", 400, "A", .const "a"⟩ : ErrorMapping)],
        includesJS "Bitstream not supported by this decoder" m'.pattern = false) →
      handleError (.generic "Bitstream not supported by this decoder")
        ⟨500, "ProcessingFailure", "d"⟩ [⟨"nope", 400, "A", .const "a"⟩] =
        ⟨500, "ProcessingFailure", "d"⟩) ∧
    (∀ pat s : String, includesJS s pat = true ↔ ∃ l r, s.data = l ++ pat.data ++ r) :=
  handleError_spec ⟨400, "BadRequest", "x"⟩ ⟨500, "ProcessingFailure", "d"⟩
    "Bitstream not supported by this decoder"
    [⟨"nope", 400, "A", .const "a"⟩] [] ⟨"not supported", 400, "B", .const "b"⟩
    (by decide) (by decide)

/-! ### Bucket resolution for THUMBOR/CUSTOM paths -/

/-- Split a list of characters on `/`, like JavaScript `path.split("/")`. -/
def splitSegsAux (cur : List Char) : List Char → List (List Char)
  | [] => [cur.reverse]
  | c :: cs => if c == '/' then cur.reverse :: splitSegsAux [] cs else splitSegsAux (c :: cur) cs

/-- The `/`-separated segments of a request path. -/
def pathSegments (path : String) : List String := (splitSegsAux [] path.data).map String.mk

/-- Does the path segment match the pattern `s3:<name>`? -/
def isS3Seg (s : String) : Bool :=
  match s.data with
  | 's' :: '3' :: ':' :: _ => true
  | _ => false

/-- The `<name>` part of an `s3:<name>` path segment. -/
def s3SegName (s : String) : String := String.mk (s.data.drop 3)

/-- Bucket resolution failures. -/
inductive BucketResolutionErr where
  | cannotFindBucket
  | cannotAccessBucket
deriving DecidableEq

/-- The names of all `s3:<name>` segments of a path, in path order. -/
def s3Names (segs : List String) : List String :=
  segs.filterMap (fun s => if isS3Seg s then some (s3SegName s) else none)

/-- Modelled from the spec: the THUMBOR/CUSTOM branch of
`ImageRequest.parseImageBucket` is not part of the available sources (only
its test suite is), so this follows §4.1 of the design document: scan the
path segments left to right for `s3:<name>`, select the first one whose
name is a member of the allow-list, fall back to the first configured
allow-list entry, and otherwise fail with `CannotFindBucket` (no `s3:`
segment at all) or `CannotAccessBucket` (only non-allowed `s3:` segments
and no fallback). -/
def parseImageBucketSegs (segs allowed : List String) :
    Except BucketResolutionErr String :=
  match (s3Names segs).find? (fun n => decide (n ∈ allowed)) with
  | some b => .ok b
  | none =>
    match allowed with
    | b :: _ => .ok b
    | [] =>
      if (s3Names segs).isEmpty then .error .cannotFindBucket
      else .error .cannotAccessBucket

/-- Modelled from the spec: bucket resolution on the raw path string. -/
def parseImageBucket (path : String) (allowed : List String) :
    Except BucketResolutionErr String :=
  parseImageBucketSegs (pathSegments path) allowed

theorem find?_append_first {α} (p : α → Bool) (l1 l2 : List α) (a : α)
    (h1 : ∀ x ∈ l1, p x = false) (ha : p a = true) :
    (l1 ++ a :: l2).find? p = some a := by
  induction l1 with
  | nil => simp [List.find?, ha]
  | cons x xs ih =>
    have hx : p x = false := h1 x (by simp)
    simp only [List.cons_append, List.find?, hx]
    exact ih (fun y hy => h1 y (by simp [hy]))

theorem find?_of_all_eq {α} (p : α → Bool) (B : α) (l : List α)
    (hex : ∃ x ∈ l, p x = true) (hall : ∀ x ∈ l, p x = true → x = B) :
    l.find? p = some B := by
  induction l with
  | nil => simp at hex
  | cons x xs ih =>
    by_cases hx : p x = true
    · have hxB : x = B := hall x (by simp) hx
      subst hxB
      simp [List.find?, hx]
    · have hx' : p x = false := by
        cases hpx : p x
        · rfl
        · exact absurd hpx hx
      simp only [List.find?, hx']
      apply ih
      · rcases hex with ⟨y, hy, hpy⟩
        rcases List.mem_cons.mp hy with rfl | hy'
        · exact absurd hpy hx
        · exact ⟨y, hy', hpy⟩
      · exact fun y hy hpy => hall y (by simp [hy]) hpy

theorem mem_s3Names {segs : List String} {n : String} :
    n ∈ s3Names segs ↔ ∃ s ∈ segs, isS3Seg s = true ∧ s3SegName s = n := by
  simp only [s3Names, List.mem_filterMap]
  constructor
  · rintro ⟨s, hs, hf⟩
    by_cases h : isS3Seg s = true
    · rw [if_pos h] at hf
      exact ⟨s, hs, h, Option.some.inj hf⟩
    · rw [if_neg h] at hf
      cases hf
  · rintro ⟨s, hs, h, rfl⟩
    exact ⟨s, hs, by rw [if_pos h]⟩

/-- C2 (spec-modelled): bucket resolution selects the first `s3:<name>`
segment, in path order, whose name is allow-listed, even when non-allowed
`s3:` segments occur earlier; in particular any path containing `s3:B`
(B allow-listed) plus any number of non-allowed `s3:X` segments resolves to
B, and a path with no allow-listed `s3:` segment falls back to the first
configured allow-list entry.  The final conjuncts replay the repository's
own test vectors. -/
theorem parseImageBucket_first_allowed (allowed : List String) (B : String)
    (hB : B ∈ allowed) (seg : String) (hseg : isS3Seg seg = true)
    (hname : s3SegName seg = B) (pre post : List String)
    (hpre : ∀ s ∈ pre, isS3Seg s = true → ¬ s3SegName s ∈ allowed) :
    parseImageBucketSegs (pre ++ seg :: post) allowed = .ok B ∧
    (∀ segs : List String, (∃ s ∈ segs, isS3Seg s = true ∧ s3SegName s = B) →
      (∀ s ∈ segs, isS3Seg s = true → s3SegName s ≠ B → ¬ s3SegName s ∈ allowed) →
      parseImageBucketSegs segs allowed = .ok B) ∧
    (∀ (segs rest2 : List String) (b0 : String),
      (∀ s ∈ segs, isS3Seg s = true → ¬ s3SegName s ∈ (b0 :: rest2)) →
      parseImageBucketSegs segs (b0 :: rest2) = .ok b0) ∧
    parseImageBucket "/s3:non-test-bucket/s3:test-bucket/test-image-001.jpg"
      ["allowedBucket001", "test-bucket"] = .ok "test-bucket" ∧
    parseImageBucket "/filters:grayscale()/s3:test-bucket/test-image-001.jpg"
      ["allowedBucket001", "allowedBucket002"] = .ok "allowedBucket001" := by
  refine ⟨?_, ?_, ?_, rfl, rfl⟩
  · have hS : s3Names (pre ++ seg :: post) = s3Names pre ++ B :: s3Names post := by
      simp [s3Names, List.filterMap_append, List.filterMap_cons, hseg, hname]
    have hfind : (s3Names (pre ++ seg :: post)).find? (fun n => decide (n ∈ allowed)) =
        some B := by
      rw [hS]
      apply find?_append_first
      · intro x hx
        rcases mem_s3Names.mp hx with ⟨s, hs, hs3, rfl⟩
        simpa using hpre s hs hs3
      · simpa using hB
    simp [parseImageBucketSegs, hfind]
  · intro segs hex hall
    have hfind : (s3Names segs).find? (fun n => decide (n ∈ allowed)) = some B := by
      apply find?_of_all_eq
      · rcases hex with ⟨s, hs, hs3, hn⟩
        exact ⟨B, mem_s3Names.mpr ⟨s, hs, hs3, hn⟩, by simpa using hB⟩
      · intro x hx hpx
        rcases mem_s3Names.mp hx with ⟨s, hs, hs3, rfl⟩
        by_contra hne
        exact hall s hs hs3 hne (by simpa using hpx)
    simp [parseImageBucketSegs, hfind]
  · intro segs rest2 b0 hnone
    have hfind : (s3Names segs).find? (fun n => decide (n ∈ (b0 :: rest2))) = none := by
      apply List.find?_eq_none.mpr
      intro x hx
      rcases mem_s3Names.mp hx with ⟨s, hs, hs3, rfl⟩
      simpa using hnone s hs hs3
    unfold parseImageBucketSegs
    rw [hfind]

/-- C2 witness: `parseImageBucket_first_allowed` applied to the segment
list of `/s3:nope/s3:bkt/img.jpg` with allow-list `["bkt", "other"]`. -/
theorem parseImageBucket_first_allowed_witness :
    parseImageBucketSegs (["", "s3:nope"] ++ "s3:bkt" :: ["img.jpg"]) ["bkt", "other"] =
      .ok "bkt" :=
  (parseImageBucket_first_allowed ["bkt", "other"] "bkt" (by decide) "s3:bkt" (by decide)
    (by decide) ["", "s3:nope"] ["img.jpg"] (by decide)).1

/-! ### The edit pipeline data model -/

/-- Image metadata as returned by the engine (`sharp.Metadata` /
`sharp.OutputInfo`): dimensions, page count and format name. -/
structure Metadata where
  width : ℤ
  height : ℤ
  pages : Option ℤ
  format : String
deriving DecidableEq

/-- The `resize` edit parameters (width/height/fit/ratio, all optional). -/
structure ResizeParams where
  width : Option ℚ := none
  height : Option ℚ := none
  fit : Option String := none
  ratio : Option ℚ := none
deriving DecidableEq

/-- The three-state `rotate` edit value: key present with no value
(`undefined`), explicit `null`, or a numeric angle. -/
inductive RotateVal where
  | undef
  | null
  | num (n : ℚ)
deriving DecidableEq

/-- The `smartCrop` edit value: a boolean or an options object. -/
inductive SmartCropVal where
  | bool (b : Bool)
  | obj (faceIndex : Option ℕ) (padding : Option ℚ)
deriving DecidableEq

/-- The `roundCrop` edit value: a boolean or an options object. -/
inductive RoundCropVal where
  | bool (b : Bool)
  | obj (top left rx ry : Option ℚ)
deriving DecidableEq

/-- The `contentModeration` edit value: a boolean or an options object. -/
inductive CMVal where
  | bool (b : Bool)
  | obj (minConfidence : Option ℚ) (blur : Option ℚ) (moderationLabels : Option (List String))
deriving DecidableEq

/-- The placement options of an `overlayWith` edit (`options.left/top`,
plain numbers or `p`-suffixed percentage strings, here already stringified
as `calcOverlaySizeOption` does with a template literal). -/
structure OverlayPosOptions where
  left : Option String := none
  top : Option String := none
deriving DecidableEq

/-- The `overlayWith` edit parameters. -/
structure OverlayParams where
  bucket : String
  key : String
  wRatio : Option String := none
  hRatio : Option String := none
  alpha : Option String := none
  options : Option OverlayPosOptions := none
deriving DecidableEq

/-- One entry of the ordered edits mapping (`ImageEdits`), one variant per
recognized key; `other` covers the allow-listed passthrough filters. -/
inductive Edit where
  | resize (p : ResizeParams)
  | crop (r : Region)
  | overlayWith (p : OverlayParams)
  | smartCrop (v : SmartCropVal)
  | roundCrop (v : RoundCropVal)
  | contentModeration (v : CMVal)
  | rotate (v : RotateVal)
  | animated (b : Bool)
  | other (name : String) (arg : String)
deriving DecidableEq

/-- The key under which an edit is stored in the mapping. -/
def editName : Edit → String
  | .resize _ => "resize"
  | .crop _ => "crop"
  | .overlayWith _ => "overlayWith"
  | .smartCrop _ => "smartCrop"
  | .roundCrop _ => "roundCrop"
  | .contentModeration _ => "contentModeration"
  | .rotate _ => "rotate"
  | .animated _ => "animated"
  | .other n _ => n

/-- The overlay buffer produced by `getOverlayImage`: the fetched bytes
together with the resize constraints and the alpha-mask channel value
(`255 * (1 - alpha/100)`) requested from the engine. -/
structure OverlayDescriptor where
  input : Bytes
  resizeWidth : Option ℤ
  resizeHeight : Option ℤ
  maskAlphaChannel : ℚ
deriving DecidableEq

/-- One engine (sharp) operation issued by the pipeline. -/
inductive SharpOp where
  | resizeOp (p : ResizeParams)
  | extractOp (r : Region)
  | compositeOverlay (d : OverlayDescriptor) (left top : Option ℤ)
  | compositeEllipse (width height : ℤ) (cx cy rx ry : ℚ)
  | reopenTrim
  | autoOrient
  | rotateOp (n : ℚ)
  | toFormat (f : String)
  | blurOp (v : ℤ)
  | call (name : String) (arg : String)
deriving DecidableEq

/-- A raw face bounding box returned by the Vision Detector
(Rekognition `FaceDetail.BoundingBox`, components not yet clamped). -/
structure FaceBox where
  left : ℚ
  top : ℚ
  width : ℚ
  height : ℚ
deriving DecidableEq

/-- The environment answering all external calls the pipeline makes:
the bucket allow-list, S3 object fetch, image validation, engine metadata
queries (as functions of the pipeline state they are asked about), detector
responses, engine extract failures, and the `SHARP_SIZE_LIMIT` variable. -/
structure Env where
  allowedBuckets : List String
  s3Get : String → String → Option Bytes
  validImage : Bytes → Bool
  metaOfInput : Metadata
  resizeMeta : ResizeParams → Metadata
  overlayMeta : OverlayDescriptor → Metadata
  bufInfo : Bytes → List SharpOp → Metadata
  faces : List FaceBox
  moderationLabels : ℚ → List String
  extractThrows : List SharpOp → Region → Bool
  sharpSizeLimit : Option String

/-! ### Error constants (`StatusCodes` and the messages from the source) -/

def invalidResizeErr : ImageHandlerErr :=
  ⟨400, "InvalidResizeException", "The image size is invalid."⟩

def cropOutOfBoundsErr : ImageHandlerErr :=
  ⟨400, "Crop::AreaOutOfBounds",
    "The cropping area you provided exceeds the boundaries of the original image. Please try choosing a correct cropping value."⟩

def paddingOutOfBoundsErr : ImageHandlerErr :=
  ⟨400, "SmartCrop::PaddingOutOfBounds",
    "The padding value you provided exceeds the boundaries of the original image. Please try choosing a smaller value or applying padding via Sharp for greater specificity."⟩

def faceIndexErr : ImageHandlerErr :=
  ⟨400, "SmartCrop::FaceIndexOutOfRange",
    "You have provided a FaceIndex value that exceeds the length of the zero-based detectedFaces array. Please specify a value that is in-range."⟩

def overlayBucketErr : ImageHandlerErr :=
  ⟨403, "ImageBucket::CannotAccessBucket",
    "The overlay image bucket you specified could not be accessed. Please check that the bucket is specified in your SOURCE_BUCKETS."⟩

def overlayImageErr : ImageHandlerErr :=
  ⟨400, "OverlayImageException",
    "The overlay image could not be applied. Please contact the system administrator."⟩

def instantiationErr : ImageHandlerErr :=
  ⟨400, "InstantiationError",
    "Input image could not be instantiated. Please choose a valid image."⟩

def processingFailureErr : ImageHandlerErr :=
  ⟨500, "ProcessingFailure", "Image processing failed."⟩

/-! ### The overlay image (`getOverlayImage`) -/

/-- The regex `/^(100|[1-9]?\d)$/` used by `getOverlayImage` to validate
`wRatio`, `hRatio` and `alpha`: exactly the canonical decimal strings of
`0..100`.  A missing value (`undefined`) never matches. -/
def zeroToHundred (s : Option String) : Bool :=
  match s with
  | none => false
  | some s' =>
    match s'.data with
    | [c] => c.isDigit
    | [c1, c2] => (decide ('1' ≤ c1) && decide (c1 ≤ '9')) && c2.isDigit
    | [c1, c2, c3] => c1 == '1' && c2 == '0' && c3 == '0'
    | _ => false

/-- `parseInt` applied to an already regex-validated ratio/alpha string
(the source only calls `parseInt` after `zeroToHundred.test` succeeded). -/
def parseRatioVal (s : Option String) : ℤ :=
  match s with
  | some s' => (parseIntJS s').getD 0
  | none => 0

/-- Embedding of `ImageHandler.getOverlayImage`: checks the overlay bucket
against the allow-list, fetches the overlay, constrains each axis to the
corresponding ratio percentage of the base dimensions when the ratio is a
valid `0..100` value, and applies the alpha mask with channel value
`255 * (1 - alpha/100)` (alpha defaulting to `0`, i.e. fully opaque, when
out of range). -/
def getOverlayImage (env : Env) (bucket key : String)
    (wRatio hRatio alpha : Option String) (sourceImageMetadata : Metadata) :
    Except ImageHandlerErr OverlayDescriptor :=
  if !(env.allowedBuckets.contains bucket) then .error overlayBucketErr
  else
    match env.s3Get bucket key with
    | none => .error overlayImageErr
    | some body =>
      let width := sourceImageMetadata.width
      let height := sourceImageMetadata.height
      let resizeWidth :=
        if zeroToHundred wRatio then some ⌊((width * parseRatioVal wRatio : ℤ) : ℚ) / 100⌋
        else none
      let resizeHeight :=
        if zeroToHundred hRatio then some ⌊((height * parseRatioVal hRatio : ℤ) : ℚ) / 100⌋
        else none
      let alphaValue : ℤ := if zeroToHundred alpha then parseRatioVal alpha else 0
      .ok ⟨body, resizeWidth, resizeHeight, 255 * (1 - (alphaValue : ℚ) / 100)⟩

/-! ### The individual edit handlers -/

/-- Embedding of `ImageHandler.applyOverlayWith`: the base metadata is
recomputed against the pending resize (the edits mapping always carries a
`resize` entry by the time the loop runs), the overlay is built and its
placement resolved through `calcOverlaySizeOption`; unresolvable (`NaN`)
offsets are omitted. -/
def applyOverlayWith (env : Env) (rp : ResizeParams) (p : OverlayParams) :
    Except ImageHandlerErr (List SharpOp) := do
  let imageMetadata := env.resizeMeta rp
  let overlay ← getOverlayImage env p.bucket p.key p.wRatio p.hRatio p.alpha imageMetadata
  let overlayMetadata := env.overlayMeta overlay
  match p.options with
  | none => .ok [.compositeOverlay overlay none none]
  | some o =>
    let left := calcOverlaySizeOption o.left imageMetadata.width overlayMetadata.width
    let top := calcOverlaySizeOption o.top imageMetadata.height overlayMetadata.height
    .ok [.compositeOverlay overlay left top]

/-- Embedding of `ImageHandler.getBoundingBox`: full image when no face is
detected, `SmartCrop::FaceIndexOutOfRange` when the index is out of range,
otherwise the selected box with components clamped to `[0,1]` and width and
height shrunk so the box stays inside the image. -/
def getBoundingBox (env : Env) (faceIndex : ℕ) : Except ImageHandlerErr BoundingBoxQ :=
  if env.faces.length ≤ 0 then .ok ⟨0, 0, 1, 1⟩
  else
    match env.faces[faceIndex]? with
    | none => .error faceIndexErr
    | some f =>
      let clamp : ℚ → ℚ := fun v => if v < 0 then 0 else if v > 1 then 1 else v
      let l := clamp f.left
      let t := clamp f.top
      let w0 := clamp f.width
      let h0 := clamp f.height
      let w := if l + w0 > 1 then 1 - l else w0
      let h := if t + h0 > 1 then 1 - t else h0
      .ok ⟨l, t, w, h⟩

/-- The enabled/disabled resolution of a `smartCrop` value
(`edits.smartCrop === true || typeof edits.smartCrop === "object"`). -/
def smartCropParams : SmartCropVal → Option (Option ℕ × Option ℚ)
  | .bool true => some (none, none)
  | .bool false => none
  | .obj fi pd => some (fi, pd)

/-- Embedding of `ImageHandler.applySmartCrop` (with
`getRekognitionCompatibleImage` inlined): fetch the detector-compatible
buffer info, detect the bounding box, compute the crop area, extract it and
restore the original format when a transcode was needed. -/
def applySmartCrop (env : Env) (input : Bytes) (acc : List SharpOp) (v : SmartCropVal) :
    Except ImageHandlerErr (List SharpOp) :=
  match smartCropParams v with
  | none => .ok []
  | some (fi, pd) => do
    let m := env.bufInfo input acc
    let needsConv := !(["jpeg", "png"].contains m.format)
    let infoFormat := if needsConv then "png" else m.format
    let bb ← getBoundingBox env (fi.getD 0)
    let cropArea := getCropArea bb (pd.getD 0) ⟨m.width, m.height⟩
    if env.extractThrows acc cropArea then .error paddingOutOfBoundsErr
    else .ok ([.extractOp cropArea] ++ (if m.format != infoFormat then [.toFormat m.format] else []))

/-- The enabled/disabled resolution of a `roundCrop` value
(`ImageHandler.hasRoundCrop`). -/
def roundCropParams : RoundCropVal → Option (Option ℚ × Option ℚ × Option ℚ × Option ℚ)
  | .bool true => some (none, none, none, none)
  | .bool false => none
  | .obj t l rx ry => some (t, l, rx, ry)

/-- Embedding of `ImageHandler.applyRoundCrop`: composite an elliptical
`dest-in` mask at the resolved geometry onto the current buffer, then break
out into a fresh pipeline with `withMetadata().trim()`. -/
def applyRoundCrop (env : Env) (input : Bytes) (acc : List SharpOp) (v : RoundCropVal) :
    Except ImageHandlerErr (List SharpOp) :=
  match roundCropParams v with
  | none => .ok []
  | some (t, l, rx, ry) =>
    let info := env.bufInfo input acc
    let g := roundCropGeometry t l rx ry info.width info.height
    .ok [.compositeEllipse info.width info.height g.2.2.2 g.2.2.1 g.1 g.2.1, .reopenTrim]

/-- The enabled/disabled resolution of a `contentModeration` value. -/
def cmParams : CMVal → Option (Option ℚ × Option ℚ × Option (List String))
  | .bool true => some (none, none, none)
  | .bool false => none
  | .obj mc b ml => some (mc, b, ml)

/-- Embedding of `ImageHandler.blurImage`: blur with `ceil(blur ?? 50)`
when that value is within `[0.3, 1000]`, restricted to the given moderation
labels when a list was supplied (a supplied empty list never blurs),
otherwise blurring whenever any label was detected. -/
def blurImageOps (blur : Option ℚ) (moderationLabels : Option (List String))
    (foundLabels : List String) : List SharpOp :=
  let blurValue : ℤ := match blur with | some b => ⌈b⌉ | none => 50
  if decide ((3 : ℚ) / 10 ≤ (blurValue : ℚ)) && decide ((blurValue : ℚ) ≤ 1000) then
    match moderationLabels with
    | some labels => if foundLabels.any (fun n => labels.contains n) then [.blurOp blurValue] else []
    | none => if foundLabels.isEmpty then [] else [.blurOp blurValue]
  else []

/-- Embedding of `ImageHandler.applyContentModeration`: detect moderation
labels at `minConfidence ?? 75`, conditionally blur, and restore the
original format when a transcode was needed. -/
def applyContentModeration (env : Env) (input : Bytes) (acc : List SharpOp) (v : CMVal) :
    Except ImageHandlerErr (List SharpOp) :=
  match cmParams v with
  | none => .ok []
  | some (minConfidence, blur, moderationLabels) =>
    let m := env.bufInfo input acc
    let needsConv := !(["jpeg", "png"].contains m.format)
    let infoFormat := if needsConv then "png" else m.format
    let found := env.moderationLabels (minConfidence.getD 75)
    .ok (blurImageOps blur moderationLabels found ++
      (if m.format != infoFormat then [.toFormat m.format] else []))

/-- Embedding of `ImageHandler.applyCrop`: a direct extract whose failure
is remapped to `Crop::AreaOutOfBounds`. -/
def applyCrop (env : Env) (acc : List SharpOp) (r : Region) :
    Except ImageHandlerErr (List SharpOp) :=
  if env.extractThrows acc r then .error cropOutOfBoundsErr else .ok [.extractOp r]

/-! ### The edit loop (`applyEdits`) -/

/-- Modelled from the spec: `SHARP_EDIT_ALLOWLIST_ARRAY` lives in
`lib/constants`, which is not among the available sources.  Per §4.2 it is
the fixed allow-list of simple filter names forwarded verbatim to the
engine; it must contain `"resize"` (and `"rotate"`) because the loop's
allow-listed default case is the only site at which the normalized resize
parameters are handed to the engine. -/
def SHARP_EDIT_ALLOWLIST_ARRAY : List String :=
  ["resize", "rotate", "blur", "flip", "flop", "sharpen", "median", "negate",
   "normalize", "normalise", "grayscale", "greyscale", "tint", "modulate",
   "extend", "flatten", "gamma", "convolve", "threshold"]

/-- Embedding of `ImageHandler.skipEdit`: under animated mode the
`rotate`, `smartCrop`, `roundCrop` and `contentModeration` edits are
skipped. -/
def skipEdit (edit : String) (isAnimation : Bool) : Bool :=
  isAnimation && ["rotate", "smartCrop", "roundCrop", "contentModeration"].contains edit

/-- Is this mapping entry the `resize` entry? -/
def isResizeEdit : Edit → Bool
  | .resize _ => true
  | _ => false

/-- The value of the `resize` key of the mapping, when present. -/
def findResize : List Edit → Option ResizeParams
  | [] => none
  | .resize p :: _ => some p
  | _ :: rest => findResize rest

/-- Replace a mapping entry by the updated resize entry when it is the
`resize` key. -/
def updResizeFun (p : ResizeParams) : Edit → Edit
  | .resize _ => .resize p
  | e => e

/-- Overwrite the `resize` entry of the mapping in place (JavaScript
property update keeps the key's insertion position). -/
def updateResize (l : List Edit) (p : ResizeParams) : List Edit :=
  l.map (updResizeFun p)

/-- The default resize injected when the mapping has no `resize` key:
`edits.resize = {}; edits.resize.fit = INSIDE` (a fresh key is appended at
the end of the mapping). -/
def defaultResizeParams : ResizeParams := { fit := some "inside" }

/-- JavaScript truthiness of an optional number (`undefined`, `0` falsy). -/
def truthyOptQ (q : Option ℚ) : Bool :=
  match q with
  | some v => !(v == 0)
  | none => false

/-- The `if (resize.width) resize.width = Math.round(Number(resize.width))`
step of `validateResizeInputs` (a falsy `0` is left unrounded). -/
def roundedIfTruthy (w : Option ℚ) : Option ℚ :=
  match w with
  | some v => if !(v == 0) then some ((round v : ℤ) : ℚ) else some v
  | none => none

/-- The `resize.width != null && resize.width <= 0` check. -/
def nonposCheck (w : Option ℚ) : Bool :=
  match w with
  | some v => decide (v ≤ 0)
  | none => false

/-- Embedding of `ImageHandler.validateResizeInputs`: round truthy
width/height and reject non-positive resolved dimensions with
`InvalidResizeException`. -/
def validateResizeInputs (p : ResizeParams) : Except ImageHandlerErr ResizeParams :=
  let w := roundedIfTruthy p.width
  let h := roundedIfTruthy p.height
  if nonposCheck w || nonposCheck h then .error invalidResizeErr
  else .ok { p with width := w, height := h }

/-- Embedding of `ImageHandler.applyResize`: this step issues no engine
operation — it only normalizes the `resize` entry of the mapping.  When the
key is absent a default `{fit: inside}` entry is appended (at the end of the
mapping); otherwise the entry is validated, and a truthy `ratio` is resolved
against the entry's own width/height (when both are truthy) or the source
metadata, rounding both products, defaulting `fit` to `inside` and dropping
`ratio`. -/
def applyResizeNormalize (env : Env) (edits : List Edit) :
    Except ImageHandlerErr (List Edit) :=
  match findResize edits with
  | none => .ok (edits ++ [.resize defaultResizeParams])
  | some p0 =>
    match validateResizeInputs p0 with
    | .error e => .error e
    | .ok p =>
    match p.ratio with
    | some ratio =>
      if !(ratio == 0) then
        let wh : ℚ × ℚ :=
          if truthyOptQ p.width && truthyOptQ p.height then (p.width.getD 0, p.height.getD 0)
          else ((env.metaOfInput.width : ℚ), (env.metaOfInput.height : ℚ))
        let p' : ResizeParams :=
          { width := some ((round (wh.1 * ratio) : ℤ) : ℚ)
          , height := some ((round (wh.2 * ratio) : ℤ) : ℚ)
          , fit := match p.fit with
              | some f => if f == "" then some "inside" else some f
              | none => some "inside"
          , ratio := none }
        .ok (updateResize edits p')
      else .ok (updateResize edits p)
    | none => .ok (updateResize edits p)

/-- The engine operations issued for a single (non-skipped) entry of the
mapping, following the `switch` of `ImageHandler.applyEdits`.  `rp` is the
current (normalized) `resize` entry of the mapping, `acc` the operations
already issued on this pipeline. -/
def editOps (env : Env) (input : Bytes) (rp : ResizeParams) (acc : List SharpOp) :
    Edit → Except ImageHandlerErr (List SharpOp)
  | .overlayWith p => applyOverlayWith env rp p
  | .smartCrop v => applySmartCrop env input acc v
  | .roundCrop v => applyRoundCrop env input acc v
  | .contentModeration v => applyContentModeration env input acc v
  | .crop r => applyCrop env acc r
  | .animated _ => .ok []
  | .rotate v =>
    .ok (match v with
      | .undef => [.autoOrient]
      | .null => []
      | .num n => [.rotateOp n])
  | .resize p => .ok (if SHARP_EDIT_ALLOWLIST_ARRAY.contains "resize" then [.resizeOp p] else [])
  | .other n a => .ok (if SHARP_EDIT_ALLOWLIST_ARRAY.contains n then [.call n a] else [])

/-- The `for (const edit in edits)` loop of `ImageHandler.applyEdits`:
entries in mapping order, skipped entries contribute nothing. -/
def editsLoop (env : Env) (input : Bytes) (rp : ResizeParams) (isAnimation : Bool) :
    List Edit → List SharpOp → Except ImageHandlerErr (List SharpOp)
  | [], acc => .ok acc
  | e :: rest, acc =>
    if skipEdit (editName e) isAnimation then editsLoop env input rp isAnimation rest acc
    else
      match editOps env input rp acc e with
      | .ok ops => editsLoop env input rp isAnimation rest (acc ++ ops)
      | .error err => .error err

/-- Embedding of `ImageHandler.applyEdits` as the trace of engine
operations it issues: `applyResize` normalizes the mapping first, then the
loop walks the mapping in insertion order. -/
def applyEditsTrace (env : Env) (input : Bytes) (edits : List Edit) (isAnimation : Bool) :
    Except ImageHandlerErr (List SharpOp) :=
  match applyResizeNormalize env edits with
  | .error e => .error e
  | .ok edits' =>
    editsLoop env input ((findResize edits').getD defaultResizeParams) isAnimation edits' []

/-! ### Instantiation and `process` -/

/-- A JavaScript `number | boolean` as computed for `limitInputPixels`. -/
inductive LimitVal where
  | bool (b : Bool)
  | num (q : ℚ)
deriving DecidableEq

/-- A decimal JavaScript `Number(s)` for the `SHARP_SIZE_LIMIT` variable:
optional sign, digits, optional fractional digits; `none` models `NaN`. -/
def parseNumberJS (s : String) : Option ℚ :=
  let core : List Char → Option ℚ := fun cs =>
    let intPart := cs.takeWhile Char.isDigit
    let rest := cs.dropWhile Char.isDigit
    let fracPart : Option (List Char) :=
      match rest with
      | [] => some []
      | '.' :: fs => if fs.all Char.isDigit then some fs else none
      | _ => none
    match fracPart with
    | none => none
    | some fs =>
      if intPart.isEmpty && fs.isEmpty then none
      else
        let iv : ℕ := intPart.foldl (fun acc c => acc * 10 + (c.toNat - 48)) 0
        let fv : ℚ := fs.foldr (fun c acc => (acc + (c.toNat - 48 : ℕ)) / 10) 0
        some ((iv : ℚ) + fv)
  match s.data.dropWhile (fun c => c == ' ') with
  | '-' :: rest => (core rest).map (fun q => -q)
  | '+' :: rest => core rest
  | cs => core cs

/-- The `limitInputPixels` computation of `process`:
`SHARP_SIZE_LIMIT === "" || isNaN(Number(SHARP_SIZE_LIMIT)) ||
Number(SHARP_SIZE_LIMIT)`. -/
def limitInputPixels (sharpSizeLimit : Option String) : LimitVal :=
  match sharpSizeLimit with
  | none => .bool true
  | some s =>
    if s == "" then .bool true
    else
      match parseNumberJS s with
      | none => .bool true
      | some q => .num q

/-- The sharp constructor options (`failOnError`, `animated`,
`limitInputPixels`). -/
structure InstOptions where
  failOnError : Bool
  animated : Bool
  limit : LimitVal
deriving DecidableEq

/-- An instantiated sharp pipeline: the input bytes, the constructor
options and whether `withMetadata()` was applied (metadata kept) or not
(metadata stripped). -/
structure SharpHandle where
  input : Bytes
  opts : InstOptions
  withMeta : Bool
deriving DecidableEq

/-- Is the `rotate` key of the mapping present with an explicit `null`
(`edits.rotate !== undefined && edits.rotate === null`)? -/
def rotateIsNull : List Edit → Bool
  | [] => false
  | .rotate .null :: _ => true
  | .rotate _ :: _ => false
  | _ :: rest => rotateIsNull rest

/-- Embedding of `ImageHandler.instantiateSharpImage`: an explicit
`rotate: null` instantiates the image without `withMetadata()` (metadata
stripped) and skips the metadata validation; otherwise the input is
validated (failing with `InstantiationError`) and instantiated with
`withMetadata()`. -/
def instantiateSharpImage (env : Env) (originalImage : Bytes)
    (edits : Option (List Edit)) (options : InstOptions) :
    Except ImageHandlerErr SharpHandle :=
  if (match edits with | some l => rotateIsNull l | none => false) then
    .ok ⟨originalImage, options, false⟩
  else if env.validImage originalImage then .ok ⟨originalImage, options, true⟩
  else .error instantiationErr

/-- Output formats (`ImageFormatTypes`). -/
inductive ImageFormatTypes where
  | jpg | jpeg | png | webp | tiff | heif | raw | gif | avif
deriving DecidableEq

/-- Embedding of `ImageHandler.convertImageFormatType`. -/
def convertImageFormatType : ImageFormatTypes → String
  | .jpg => "jpg"
  | .jpeg => "jpeg"
  | .png => "png"
  | .webp => "webp"
  | .tiff => "tiff"
  | .heif => "heif"
  | .raw => "raw"
  | .gif => "gif"
  | .avif => "avif"

/-- The output modification applied by `modifyImageOutput`. -/
inductive OutOp where
  | webpEffort (e : ℚ)
  | toFormatOut (f : String)
deriving DecidableEq

/-- Embedding of `ImageHandler.modifyImageOutput`: `webp({effort})` when
the requested format is WEBP and an effort was supplied, a plain
`toFormat` otherwise, nothing when no output format was requested. -/
def modifyImageOutput (outputFormat : Option ImageFormatTypes) (effort : Option ℚ) :
    Option OutOp :=
  match outputFormat with
  | none => none
  | some f =>
    match effort with
    | some e => if f = ImageFormatTypes.webp then some (.webpEffort e)
                else some (.toFormatOut (convertImageFormatType f))
    | none => some (.toFormatOut (convertImageFormatType f))

/-- A normalized image request (`ImageRequestInfo`). -/
structure ImageRequestInfo where
  bucket : String
  key : String
  edits : Option (List Edit)
  outputFormat : Option ImageFormatTypes
  effort : Option ℚ
  contentType : String
  originalImage : Bytes
deriving DecidableEq

/-- The animated option before the page-count check:
`typeof edits.animated !== "undefined" ? edits.animated :
contentType === ContentTypes.GIF`. -/
def animatedSetting : List Edit → String → Bool
  | [], contentType => contentType == "image/gif"
  | .animated b :: _, _ => b
  | _ :: rest, contentType => animatedSetting rest contentType

/-- The animated option after the page-count check of `process`: animated
mode survives only when the source metadata reports more than one page
(`!metadata.pages || metadata.pages <= 1` downgrades to static). -/
def animatedResolved (animated : Bool) (pages : Option ℤ) : Bool :=
  animated && (match pages with
    | some p => decide (1 < p)
    | none => false)

/-- The outcome of `process`: either the untouched original bytes or an
instantiated pipeline together with the issued edit operations and the
output-format modification. -/
inductive ProcOut where
  | raw (b : Bytes)
  | pipeline (h : SharpHandle) (ops : List SharpOp) (outOp : Option OutOp)
deriving DecidableEq

/-- The body of `ImageHandler.process` (inside its `try`). -/
def processCore (env : Env) (req : ImageRequestInfo) : Except ImageHandlerErr ProcOut :=
  let limit := limitInputPixels env.sharpSizeLimit
  let opts0 : InstOptions := ⟨false, req.contentType == "image/gif", limit⟩
  match req.edits with
  | none =>
    match req.outputFormat with
    | some _ => do
      let h ← instantiateSharpImage env req.originalImage req.edits opts0
      .ok (.pipeline h [] (modifyImageOutput req.outputFormat req.effort))
    | none => .ok (.raw req.originalImage)
  | some [] =>
    match req.outputFormat with
    | some _ => do
      let h ← instantiateSharpImage env req.originalImage req.edits opts0
      .ok (.pipeline h [] (modifyImageOutput req.outputFormat req.effort))
    | none => .ok (.raw req.originalImage)
  | some edits => do
    let anim0 := animatedSetting edits req.contentType
    let opts1 : InstOptions := { opts0 with animated := anim0 }
    let h1 ← instantiateSharpImage env req.originalImage (some edits) opts1
    let animFinal := animatedResolved anim0 env.metaOfInput.pages
    let h2 ←
      if anim0 && !animFinal then
        instantiateSharpImage env req.originalImage (some edits)
          { opts1 with animated := false }
      else .ok h1
    let ops ← applyEditsTrace env req.originalImage edits animFinal
    .ok (.pipeline h2 ops (modifyImageOutput req.outputFormat req.effort))

/-- JavaScript `s.replace(pat, rep)` for a string pattern: replaces the
first occurrence only, returning the input unchanged when the pattern does
not occur. -/
def replaceFirstSub (pat rep : List Char) : List Char → List Char
  | [] => []
  | c :: cs =>
    if prefixAt pat (c :: cs) then rep ++ (c :: cs).drop pat.length
    else c :: replaceFirstSub pat rep cs

/-- The error-mapping table of `process`'s `catch` block. -/
def processErrorMappings : List ErrorMapping :=
  [ ⟨"Image to composite must have same dimensions or smaller", 400, "BadRequest",
      .fn (fun msg => String.mk (replaceFirstSub "composite".data "overlay".data msg.data))⟩
  , ⟨"Bitstream not supported by this decoder", 400, "BadRequest",
      .const "Invalid base image. AVIF images with a bit-depth other than 8 are not supported for image edits."⟩ ]

/-- Embedding of `ImageHandler.process`: the `try` body wrapped in the
`catch` that funnels errors through `handleError` (all pipeline errors are
already `ImageHandlerError`s here, so they are rethrown unchanged). -/
def process (env : Env) (req : ImageRequestInfo) : Except ImageHandlerErr ProcOut :=
  match processCore env req with
  | .ok out => .ok out
  | .error e => .error (handleError (.handler e) processingFailureErr processErrorMappings)

/-! ### Loop and normalization lemmas -/

theorem findResize_append_of_none (l1 l2 : List Edit) (h : findResize l1 = none) :
    findResize (l1 ++ l2) = findResize l2 := by
  induction l1 with
  | nil => rfl
  | cons e rest ih =>
    cases e with
    | resize p => simp [findResize] at h
    | crop r => exact ih (by simpa [findResize] using h)
    | overlayWith p => exact ih (by simpa [findResize] using h)
    | smartCrop v => exact ih (by simpa [findResize] using h)
    | roundCrop v => exact ih (by simpa [findResize] using h)
    | contentModeration v => exact ih (by simpa [findResize] using h)
    | rotate v => exact ih (by simpa [findResize] using h)
    | animated b => exact ih (by simpa [findResize] using h)
    | other n a => exact ih (by simpa [findResize] using h)

theorem editsLoop_append (env : Env) (input : Bytes) (rp : ResizeParams)
    (isAnimation : Bool) (l1 l2 : List Edit) (acc : List SharpOp) :
    editsLoop env input rp isAnimation (l1 ++ l2) acc =
      (match editsLoop env input rp isAnimation l1 acc with
       | .ok acc' => editsLoop env input rp isAnimation l2 acc'
       | .error e => .error e) := by
  induction l1 generalizing acc with
  | nil => simp [editsLoop]
  | cons e rest ih =>
    simp only [List.cons_append, editsLoop]
    split
    · exact ih acc
    · cases editOps env input rp acc e with
      | ok ops => exact ih (acc ++ ops)
      | error err => rfl

theorem findResize_map_other (l : List (String × String)) :
    findResize (l.map fun q => Edit.other q.1 q.2) = none := by
  induction l with
  | nil => rfl
  | cons q qs ih => simpa [findResize] using ih

theorem updateResize_map_other (l : List (String × String)) (p : ResizeParams) :
    updateResize (l.map fun q => Edit.other q.1 q.2) p = l.map fun q => Edit.other q.1 q.2 := by
  unfold updateResize
  rw [List.map_map]
  exact List.map_congr_left (fun a _ => rfl)

theorem findResize_append_other (l : List (String × String)) (p : ResizeParams)
    (l2 : List Edit) :
    findResize ((l.map fun q => Edit.other q.1 q.2) ++ Edit.resize p :: l2) = some p := by
  rw [findResize_append_of_none _ _ (findResize_map_other l)]
  rfl

theorem editsLoop_others (env : Env) (input : Bytes) (rp : ResizeParams)
    (l : List (String × String)) (rest : List Edit) (acc : List SharpOp)
    (h : ∀ q ∈ l, SHARP_EDIT_ALLOWLIST_ARRAY.contains q.1 = true) :
    editsLoop env input rp false ((l.map fun q => Edit.other q.1 q.2) ++ rest) acc =
      editsLoop env input rp false rest (acc ++ l.map fun q => SharpOp.call q.1 q.2) := by
  induction l generalizing acc with
  | nil => simp
  | cons q qs ih =>
    have hq : SHARP_EDIT_ALLOWLIST_ARRAY.contains q.1 = true := h q (by simp)
    simp only [List.map_cons, List.cons_append, editsLoop, editName, skipEdit,
      Bool.false_and, Bool.false_eq_true, if_false, editOps, hq, if_true, List.append_eq]
    rw [ih (acc ++ [SharpOp.call q.1 q.2]) (fun x hx => h x (by simp [hx]))]
    simp

theorem validateResizeInputs_pos (p : ResizeParams) (w h : ℚ)
    (hw : p.width = some w) (hh : p.height = some h)
    (hw0 : ¬ w = 0) (hh0 : ¬ h = 0) (hwpos : 0 < round w) (hhpos : 0 < round h) :
    validateResizeInputs p =
      .ok { p with width := some ((round w : ℤ) : ℚ), height := some ((round h : ℤ) : ℚ) } := by
  have hwb : (w == 0) = false := beq_eq_false_iff_ne.mpr hw0
  have hhb : (h == 0) = false := beq_eq_false_iff_ne.mpr hh0
  have hwn : nonposCheck (some ((round w : ℤ) : ℚ)) = false := by
    simp only [nonposCheck, decide_eq_false_iff_not, not_le]
    exact_mod_cast hwpos
  have hhn : nonposCheck (some ((round h : ℤ) : ℚ)) = false := by
    simp only [nonposCheck, decide_eq_false_iff_not, not_le]
    exact_mod_cast hhpos
  simp only [validateResizeInputs, roundedIfTruthy, hw, hh, hwb, hhb, Bool.not_false,
    if_true, hwn, hhn, Bool.or_self, Bool.false_eq_true, if_false]

/-- A fully concrete environment used for counterexamples and witnesses. -/
def env0 : Env :=
  { allowedBuckets := ["bkt"]
  , s3Get := fun _ _ => some [7]
  , validImage := fun _ => true
  , metaOfInput := ⟨100, 50, some 1, "png"⟩
  , resizeMeta := fun _ => ⟨100, 50, none, "png"⟩
  , overlayMeta := fun _ => ⟨20, 10, none, "png"⟩
  , bufInfo := fun _ _ => ⟨100, 50, none, "png"⟩
  , faces := []
  , moderationLabels := fun _ => []
  , extractThrows := fun _ _ => false
  , sharpSizeLimit := none }

/-- Does this engine operation come from the `resize` edit? -/
def isResizeOp : SharpOp → Bool
  | .resizeOp _ => true
  | _ => false

/-- C1 counterexample: the resize edit is *not* applied to the image first.
With the mapping `{crop: …, resize: {}}` the first engine operation issued
by `applyEdits` is the crop extract, not the resize: `applyResize` (which
does run first) only normalizes parameters and issues no engine operation,
while the resize operation itself is issued by the loop's allow-listed
default case at the position of the `resize` key. -/
theorem applyEdits_resize_not_first_cex :
    applyEditsTrace env0 [5] [.crop ⟨0, 0, 10, 10⟩, .resize {}] false
      = .ok [.extractOp ⟨0, 0, 10, 10⟩, .resizeOp {}] ∧
    (applyEditsTrace env0 [5] [.crop ⟨0, 0, 10, 10⟩, .resize {}] false).map
      (fun t => t.head?.map isResizeOp) = .ok (some false) :=
  ⟨rfl, rfl⟩

/-- C1 (amended): `applyEdits` first *normalizes* the resize parameters via
`applyResize` (which issues no engine operation), then issues the engine
operations for the edits in mapping (insertion) order — the resize
operation included, at the position of the `resize` key; when the key is
absent, a default `{fit: inside}` resize is appended at the end of the
mapping and hence issued last.  The first conjunct shows the mapping-order
trace with the (validated, rounded) resize at its key's position for any
surrounding allow-listed passthrough edits; the second shows the
defaulted-resize-last behavior for any mapping without a `resize` key. -/
theorem applyEdits_resize_position (env : Env) (input : Bytes)
    (pres posts : List (String × String)) (p : ResizeParams) (w h : ℚ)
    (hw : p.width = some w) (hh : p.height = some h) (hratio : p.ratio = none)
    (hw0 : ¬ w = 0) (hh0 : ¬ h = 0) (hwpos : 0 < round w) (hhpos : 0 < round h)
    (hnames : ∀ q ∈ pres ++ posts, SHARP_EDIT_ALLOWLIST_ARRAY.contains q.1 = true) :
    applyEditsTrace env input
        ((pres.map fun q => Edit.other q.1 q.2) ++
          Edit.resize p :: (posts.map fun q => Edit.other q.1 q.2)) false
      = .ok ((pres.map fun q => SharpOp.call q.1 q.2) ++
          SharpOp.resizeOp
            { p with width := some ((round w : ℤ) : ℚ), height := some ((round h : ℤ) : ℚ) } ::
          (posts.map fun q => SharpOp.call q.1 q.2)) ∧
    (∀ (edits : List Edit) (anim : Bool) (t : List SharpOp), findResize edits = none →
      applyEditsTrace env input edits anim = .ok t →
      t.getLast? = some (.resizeOp defaultResizeParams)) := by
  have hskipResize : ∀ b, skipEdit "resize" b = false := by intro b; cases b <;> rfl
  constructor
  · have hval := validateResizeInputs_pos p w h hw hh hw0 hh0 hwpos hhpos
    set p' : ResizeParams :=
      { p with width := some ((round w : ℤ) : ℚ), height := some ((round h : ℤ) : ℚ) }
      with hp'
    have hratio' : p'.ratio = none := hratio
    have hnorm : applyResizeNormalize env
        ((pres.map fun q => Edit.other q.1 q.2) ++
          Edit.resize p :: (posts.map fun q => Edit.other q.1 q.2))
        = .ok ((pres.map fun q => Edit.other q.1 q.2) ++
            Edit.resize p' :: (posts.map fun q => Edit.other q.1 q.2)) := by
      unfold applyResizeNormalize
      rw [findResize_append_other]
      simp only [hval, hratio', hratio]
      rw [show updateResize
          ((pres.map fun q => Edit.other q.1 q.2) ++
            Edit.resize p :: (posts.map fun q => Edit.other q.1 q.2)) p'
          = (pres.map fun q => Edit.other q.1 q.2) ++
            Edit.resize p' :: (posts.map fun q => Edit.other q.1 q.2) from by
        simp only [updateResize, List.map_append, List.map_cons]
        rw [show List.map (updResizeFun p') (pres.map fun q => Edit.other q.1 q.2)
            = pres.map fun q => Edit.other q.1 q.2 from updateResize_map_other pres p']
        rw [show List.map (updResizeFun p') (posts.map fun q => Edit.other q.1 q.2)
            = posts.map fun q => Edit.other q.1 q.2 from updateResize_map_other posts p']
        rfl]
    unfold applyEditsTrace
    simp only [hnorm]
    rw [findResize_append_other]
    simp only [Option.getD_some]
    rw [editsLoop_others env input p' pres _ []
      (fun q hq => hnames q (by simp [hq]))]
    simp only [editsLoop, editName, hskipResize, Bool.false_eq_true, if_false, editOps]
    rw [if_pos (by rfl)]
    rw [show (posts.map fun q => Edit.other q.1 q.2)
        = (posts.map fun q => Edit.other q.1 q.2) ++ [] from by simp]
    rw [editsLoop_others env input p' posts [] _
      (fun q hq => hnames q (by simp [hq]))]
    simp [editsLoop]
  · intro edits anim t hnr hok
    have hnorm : applyResizeNormalize env edits = .ok (edits ++ [.resize defaultResizeParams]) := by
      unfold applyResizeNormalize
      rw [hnr]
    unfold applyEditsTrace at hok
    simp only [hnorm] at hok
    rw [editsLoop_append] at hok
    set rp := (findResize (edits ++ [Edit.resize defaultResizeParams])).getD defaultResizeParams
    cases hloop : editsLoop env input rp anim edits [] with
    | error e =>
      rw [hloop] at hok
      cases hok
    | ok acc' =>
      rw [hloop] at hok
      simp only [editsLoop, editName, hskipResize, Bool.false_eq_true, if_false, editOps] at hok
      rw [if_pos (by rfl)] at hok
      have ht : t = acc' ++ [SharpOp.resizeOp defaultResizeParams] := by
        cases hok
        rfl
      rw [ht]
      exact List.getLast?_concat acc'

/-- C1 witness: `applyEdits_resize_position` applied with one passthrough
edit before the resize key: the trace is `[grayscale-call, resize]`, i.e.
in mapping order with resize second. -/
theorem applyEdits_resize_position_witness :
    applyEditsTrace env0 [5]
        [Edit.other "grayscale" "true", Edit.resize { width := some 50, height := some 40 }] false
      = .ok [SharpOp.call "grayscale" "true",
          SharpOp.resizeOp
            { width := some ((round (50:ℚ) : ℤ) : ℚ), height := some ((round (40:ℚ) : ℤ) : ℚ) }] :=
  (applyEdits_resize_position env0 [5] [("grayscale", "true")] []
    { width := some 50, height := some 40 } 50 40 rfl rfl rfl
    (by norm_num) (by norm_num) (by norm_num [round_eq]) (by norm_num [round_eq])
    (by decide)).1

/-- C3: for every request whose edits mapping is absent or empty and whose
`outputFormat` is undefined, `process` returns the original image bytes
unchanged (the `return originalImage` early path — no instantiation, no
re-encode). -/
theorem process_no_edits_identity (env : Env) (req : ImageRequestInfo)
    (hedits : req.edits = none ∨ req.edits = some [])
    (hfmt : req.outputFormat = none) :
    process env req = .ok (.raw req.originalImage) := by
  rcases hedits with h | h <;> simp [process, processCore, h, hfmt]

/-- C3 witness: `process_no_edits_identity` on a concrete request with
empty edits. -/
theorem process_no_edits_identity_witness :
    process env0 ⟨"b", "k", some [], none, none, "image/png", [1, 2, 3]⟩ =
      .ok (.raw [1, 2, 3]) :=
  process_no_edits_identity env0 ⟨"b", "k", some [], none, none, "image/png", [1, 2, 3]⟩
    (Or.inr rfl) rfl

/-- C4: the three `rotate` states are pairwise non-equivalent.  A `rotate`
key with no value (`undefined`) leaves metadata handling unchanged and
issues `autoOrient`; an explicit `null` strips metadata at pipeline entry
(the image is instantiated without `withMetadata()`) and issues no rotation
operation; a numeric value `n` (including `0`) issues an explicit
`rotate(n)`.  The final conjuncts record that the three resulting
(instantiation, trace) behaviors are pairwise distinct. -/
theorem rotate_three_states (env : Env) (input : Bytes) (opts : InstOptions) (n : ℚ)
    (hvalid : env.validImage input = true) :
    instantiateSharpImage env input (some [.rotate .null]) opts = .ok ⟨input, opts, false⟩ ∧
    instantiateSharpImage env input (some [.rotate .undef]) opts = .ok ⟨input, opts, true⟩ ∧
    instantiateSharpImage env input (some [.rotate (.num n)]) opts = .ok ⟨input, opts, true⟩ ∧
    applyEditsTrace env input [.rotate .undef] false =
      .ok [.autoOrient, .resizeOp defaultResizeParams] ∧
    applyEditsTrace env input [.rotate .null] false =
      .ok [.resizeOp defaultResizeParams] ∧
    applyEditsTrace env input [.rotate (.num n)] false =
      .ok [.rotateOp n, .resizeOp defaultResizeParams] ∧
    [SharpOp.autoOrient, .resizeOp defaultResizeParams] ≠ [.resizeOp defaultResizeParams] ∧
    [SharpOp.rotateOp n, .resizeOp defaultResizeParams] ≠ [.resizeOp defaultResizeParams] ∧
    [SharpOp.autoOrient, .resizeOp defaultResizeParams] ≠
      [SharpOp.rotateOp n, .resizeOp defaultResizeParams] ∧
    (false : Bool) ≠ true := by
  refine ⟨rfl, ?_, ?_, rfl, rfl, rfl, by simp, by simp, by simp, by simp⟩
  · simp [instantiateSharpImage, rotateIsNull, hvalid]
  · simp [instantiateSharpImage, rotateIsNull, hvalid]

/-- C4 witness: `rotate_three_states` on a concrete environment and input
(with rotation angle `0`, confirming that `rotate(0)` is an explicit
operation distinct from both other states). -/
theorem rotate_three_states_witness :
    instantiateSharpImage env0 [1] (some [.rotate .null]) ⟨false, false, .bool true⟩ =
      .ok ⟨[1], ⟨false, false, .bool true⟩, false⟩ ∧
    applyEditsTrace env0 [1] [.rotate (.num 0)] false =
      .ok [.rotateOp 0, .resizeOp defaultResizeParams] :=
  ⟨(rotate_three_states env0 [1] ⟨false, false, .bool true⟩ 0 rfl).1,
   (rotate_three_states env0 [1] ⟨false, false, .bool true⟩ 0 rfl).2.2.2.2.2.1⟩

/-! ### Animated-mode skipping -/

/-- The complement of the animated-mode skip set: an edit survives animated
mode precisely when its key is not one of `rotate`, `smartCrop`,
`roundCrop`, `contentModeration`. -/
def keepForAnimation (e : Edit) : Bool :=
  !(["rotate", "smartCrop", "roundCrop", "contentModeration"].contains (editName e))

theorem findResize_filter (edits : List Edit) :
    findResize (edits.filter keepForAnimation) = findResize edits := by
  induction edits with
  | nil => rfl
  | cons e rest ih =>
    cases hk : keepForAnimation e with
    | true =>
      rw [List.filter_cons_of_pos hk]
      cases e <;> first | rfl | exact ih
    | false =>
      rw [List.filter_cons_of_neg (by simp [hk])]
      cases e
      case resize p => simp [keepForAnimation, editName] at hk
      all_goals exact ih

theorem keep_updResizeFun (q : ResizeParams) (e : Edit) :
    keepForAnimation (updResizeFun q e) = keepForAnimation e := by
  cases e <;> rfl

theorem updateResize_filter (edits : List Edit) (q : ResizeParams) :
    updateResize (edits.filter keepForAnimation) q =
      (updateResize edits q).filter keepForAnimation := by
  unfold updateResize
  rw [List.filter_map,
    show keepForAnimation ∘ updResizeFun q = keepForAnimation from
      funext (keep_updResizeFun q)]

theorem editsLoop_filter (env : Env) (input : Bytes) (rp : ResizeParams)
    (l : List Edit) (acc : List SharpOp) :
    editsLoop env input rp true (l.filter keepForAnimation) acc =
      editsLoop env input rp true l acc := by
  induction l generalizing acc with
  | nil => rfl
  | cons e rest ih =>
    cases hc : (["rotate", "smartCrop", "roundCrop", "contentModeration"].contains
        (editName e)) with
    | false =>
      have hk : keepForAnimation e = true := by unfold keepForAnimation; rw [hc]; rfl
      have hs : skipEdit (editName e) true = false := by
        unfold skipEdit; rw [Bool.true_and]; exact hc
      rw [List.filter_cons_of_pos hk]
      simp only [editsLoop, hs, Bool.false_eq_true, if_false]
      cases editOps env input rp acc e with
      | ok ops => exact ih (acc ++ ops)
      | error err => rfl
    | true =>
      have hk : keepForAnimation e = false := by unfold keepForAnimation; rw [hc]; rfl
      have hs : skipEdit (editName e) true = true := by
        unfold skipEdit; rw [Bool.true_and]; exact hc
      rw [List.filter_cons_of_neg (by simp [hk])]
      conv_rhs => rw [editsLoop]
      rw [if_pos hs]
      exact ih acc

theorem applyResizeNormalize_filter (env : Env) (edits : List Edit) :
    applyResizeNormalize env (edits.filter keepForAnimation) =
      (match applyResizeNormalize env edits with
       | .ok l => .ok (l.filter keepForAnimation)
       | .error e => .error e) := by
  unfold applyResizeNormalize
  rw [findResize_filter]
  cases hf : findResize edits with
  | none =>
    simp only
    rw [show (edits.filter keepForAnimation) ++ [Edit.resize defaultResizeParams]
        = (edits ++ [Edit.resize defaultResizeParams]).filter keepForAnimation from by
      rw [List.filter_append]
      rfl]
  | some p0 =>
    simp only
    cases hv : validateResizeInputs p0 with
    | error e => rfl
    | ok pn =>
      simp only
      cases hr : pn.ratio with
      | none => simp only [updateResize_filter]
      | some ratio =>
        cases hz : (!(ratio == 0)) with
        | true => simp only [hz, if_true, updateResize_filter]
        | false => simp only [hz, Bool.false_eq_true, if_false, updateResize_filter]

/-- C5: with animated mode active, the `rotate`, `smartCrop`, `roundCrop`
and `contentModeration` edits are skipped entirely and silently — the trace
(and any error) of `applyEdits` equals that of the mapping with those four
keys removed, so all other edits still apply; and when the source has at
most one page (or no page count), the animated option is downgraded to
static (`animatedResolved` is what `process` passes to `applyEdits` and to
the re-instantiation). -/
theorem animated_mode_skips_and_downgrades (env : Env) (input : Bytes)
    (edits : List Edit) (a : Bool) (p : ℤ) (hp : p ≤ 1) :
    applyEditsTrace env input edits true =
      applyEditsTrace env input (edits.filter keepForAnimation) true ∧
    animatedResolved a (some p) = false ∧
    animatedResolved a none = false := by
  refine ⟨?_, ?_, ?_⟩
  · unfold applyEditsTrace
    rw [applyResizeNormalize_filter]
    cases hn : applyResizeNormalize env edits with
    | error e => rfl
    | ok l =>
      simp only
      rw [findResize_filter]
      exact (editsLoop_filter env input _ l []).symm
  · have hd : decide (1 < p) = false := decide_eq_false (by omega)
    simp [animatedResolved, hd]
  · simp [animatedResolved]

/-- C5 witness: `animated_mode_skips_and_downgrades` on a concrete mapping
containing a rotate and a passthrough edit, with a one-page source. -/
theorem animated_mode_skips_and_downgrades_witness :
    applyEditsTrace env0 [1] [.rotate (.num 90), .other "grayscale" "true"] true =
      applyEditsTrace env0 [1]
        ([.rotate (.num 90), .other "grayscale" "true"].filter keepForAnimation) true ∧
    animatedResolved true (some 1) = false ∧
    animatedResolved true none = false :=
  animated_mode_skips_and_downgrades env0 [1]
    [.rotate (.num 90), .other "grayscale" "true"] true 1 (by norm_num)

/-- C9: in `getOverlayImage`, each of `wRatio`/`hRatio` independently
constrains its axis to `floor(baseDim * ratio / 100)` exactly when the
value matches the `0..100` pattern, and leaves the axis unconstrained
otherwise; `alpha` in `0..100` yields the mask channel
`255 * ((100 - alpha)/100)` (i.e. opacity `(100-alpha)/100`), while any
out-of-range alpha defaults to the fully opaque `alpha = 0` behavior
(channel `255`).  The enumeration conjunct shows every integer value
`0..100` (in canonical decimal form) passes the pattern and parses to
itself; `"101"`, `"-5"` and a missing value never match. -/
theorem getOverlayImage_ratio_alpha (env : Env) (bucket key : String)
    (w h a : String) (meta : Metadata) (body : Bytes)
    (hbucket : env.allowedBuckets.contains bucket = true)
    (hs3 : env.s3Get bucket key = some body) :
    ∃ d : OverlayDescriptor,
      getOverlayImage env bucket key (some w) (some h) (some a) meta = .ok d ∧
      d.input = body ∧
      (∀ n : ℤ, zeroToHundred (some w) = true → parseIntJS w = some n →
        d.resizeWidth = some ⌊(meta.width : ℚ) * n / 100⌋) ∧
      (zeroToHundred (some w) = false → d.resizeWidth = none) ∧
      (∀ n : ℤ, zeroToHundred (some h) = true → parseIntJS h = some n →
        d.resizeHeight = some ⌊(meta.height : ℚ) * n / 100⌋) ∧
      (zeroToHundred (some h) = false → d.resizeHeight = none) ∧
      (∀ n : ℤ, zeroToHundred (some a) = true → parseIntJS a = some n →
        d.maskAlphaChannel = 255 * ((100 - n : ℚ) / 100)) ∧
      (zeroToHundred (some a) = false → d.maskAlphaChannel = 255) ∧
      (∀ n : ℕ, n < 101 →
        zeroToHundred (some (toString n)) = true ∧ parseIntJS (toString n) = some (n : ℤ)) ∧
      zeroToHundred (some "101") = false ∧ zeroToHundred (some "-5") = false ∧
      zeroToHundred none = false := by
  have heq : getOverlayImage env bucket key (some w) (some h) (some a) meta = .ok
      ⟨body,
       (if zeroToHundred (some w) then
          some ⌊((meta.width * parseRatioVal (some w) : ℤ) : ℚ) / 100⌋ else none),
       (if zeroToHundred (some h) then
          some ⌊((meta.height * parseRatioVal (some h) : ℤ) : ℚ) / 100⌋ else none),
       255 * (1 - (((if zeroToHundred (some a) then parseRatioVal (some a) else 0) : ℤ) : ℚ) / 100)⟩ := by
    unfold getOverlayImage
    rw [hbucket, hs3]
    simp only [Bool.not_true, Bool.false_eq_true, if_false]
  refine ⟨_, heq, rfl, ?_, ?_, ?_, ?_, ?_, ?_, by decide, by decide, by decide, by decide⟩
  · intro n hz hp
    simp only [hz, if_true]
    congr 2
    simp only [parseRatioVal, hp, Option.getD_some]
    push_cast
    ring
  · intro hz
    simp only [hz, Bool.false_eq_true, if_false]
  · intro n hz hp
    simp only [hz, if_true]
    congr 2
    simp only [parseRatioVal, hp, Option.getD_some]
    push_cast
    ring
  · intro hz
    simp only [hz, Bool.false_eq_true, if_false]
  · intro n hz hp
    simp only [hz, if_true, parseRatioVal, hp, Option.getD_some]
    ring
  · intro hz
    simp only [hz, Bool.false_eq_true, if_false]
    norm_num

/-- C9 witness: `getOverlayImage_ratio_alpha` on a concrete overlay request
with `wRatio = "50"` (in range, constrains the width to `50`),
`hRatio = "101"` (out of range, height unconstrained) and `alpha = "25"`. -/
theorem getOverlayImage_ratio_alpha_witness :
    ∃ d : OverlayDescriptor,
      getOverlayImage env0 "bkt" "k" (some "50") (some "101") (some "25")
        ⟨100, 50, none, "png"⟩ = .ok d ∧
      d.resizeWidth = some 50 ∧ d.resizeHeight = none ∧
      d.maskAlphaChannel = 255 * ((100 - (25 : ℤ) : ℚ) / 100) := by
  obtain ⟨d, hd, hin, hw1, hw2, hh1, hh2, ha1, ha2, henum, hrest⟩ :=
    getOverlayImage_ratio_alpha env0 "bkt" "k" "50" "101" "25" ⟨100, 50, none, "png"⟩ [7]
      (by decide) rfl
  refine ⟨d, hd, ?_, hh2 (by decide), ha1 25 (by decide) (by decide)⟩
  rw [hw1 50 (by decide) (by decide)]
  norm_num

end ImageHandler
